import Mathlib

/-!
# Verification of the Telegram log-delivery pipeline

Shallow embedding of `app/utils/custom_logging/TelegramLogHandler.py`:
the `TelegramLogHandler` class (its `emit`, `_split_message`, `_worker`
and `_start_worker` members) and the module-level `send_chat_info_log`
coroutine.  Strings are modelled as `List Char` (Python strings are
sequences of characters and all slicing in the source is by characters).
-/

/-- `TelegramLogHandler.MAX_MESSAGE_LENGTH` (4000). -/
def MAX_MESSAGE_LENGTH : Nat := 4000

/-- `TelegramLogHandler.TIME_SLEEP` (21), the backoff base delay. -/
def TIME_SLEEP : Nat := 21

/-- `TelegramLogHandler.MAX_RETRIES` (3). -/
def MAX_RETRIES : Nat := 3

/-- `logging.WARNING` (30). -/
def WARNING : Nat := 30

/-- `logging.ERROR` (40). -/
def ERROR : Nat := 40

/-- `logging.CRITICAL` (50). -/
def CRITICAL : Nat := 50

/-- Fuelled version of the `while start < len(message)` loop of
`TelegramLogHandler._split_message`: each iteration takes the next
`MAX_MESSAGE_LENGTH`-character slice.  The fuel only bounds the number of
iterations; `splitMessage` supplies `message.length`, which is enough
because every iteration removes at least one character. -/
def splitGo : Nat → List Char → List (List Char)
  | 0, _ => []
  | _ + 1, [] => []
  | fuel + 1, c :: cs =>
    (c :: cs).take MAX_MESSAGE_LENGTH :: splitGo fuel ((c :: cs).drop MAX_MESSAGE_LENGTH)

/-- `TelegramLogHandler._split_message`: slices `message` into consecutive
chunks of at most `MAX_MESSAGE_LENGTH` characters. -/
def splitMessage (message : List Char) : List (List Char) :=
  splitGo message.length message

/-- The `f"[{idx}/{total}] "` marker prepended to a chunk when the INFO
branch of `emit` produced more than one chunk. -/
def chunkMarker (idx total : Nat) : List Char :=
  (s!"[{idx}/{total}] ").toList

/-- The `for idx, chunk in enumerate(messages, 1)` loop body of `emit`:
when the whole message produced more than one chunk (`total > 1`), each
chunk is prepended with its `[idx/total] ` marker before being enqueued. -/
def markChunks (total : Nat) : Nat → List (List Char) → List (List Char)
  | _, [] => []
  | idx, c :: rest =>
    (if total > 1 then chunkMarker idx total ++ c else c) :: markChunks total (idx + 1) rest

/-- The INFO branch of `TelegramLogHandler.emit`: the list of text bodies
enqueued (in order) for a formatted record `log_entry` of severity below
WARNING. -/
def emitTextChunks (log_entry : List Char) : List (List Char) :=
  markChunks (splitMessage log_entry).length 1 (splitMessage log_entry)

/-- An item placed on the `asyncio.Queue` of the handler: either a plain string
(the INFO branch of `emit` calls `put_nowait(chunk)`) or the
`{"as_file": True, "file": ..., "filename": ..., "caption": ...}` dict of
the WARNING-and-above branch. -/
inductive QueueItem where
  | text (body : List Char) : QueueItem
  | document (file : List Char) (filename : List Char) (caption : List Char) : QueueItem
  deriving DecidableEq, Repr

/-- One entry of the `level_config` dict in `emit`. -/
structure LevelConfig where
  log_type : List Char
  filename_tag : List Char
  emoji : List Char
  deriving DecidableEq, Repr

/-- `level_config[logging.WARNING]`. -/
def warningConfig : LevelConfig :=
  { log_type := "ПРЕДУПРЕЖДЕНИЕ".toList, filename_tag := "warning".toList, emoji := "⚠️".toList }

/-- `level_config[logging.ERROR]`. -/
def errorConfig : LevelConfig :=
  { log_type := "ОШИБКА".toList, filename_tag := "error".toList, emoji := "❌".toList }

/-- `level_config[logging.CRITICAL]`. -/
def criticalConfig : LevelConfig :=
  { log_type := "КРИТИЧЕСКАЯ ОШИБКА".toList, filename_tag := "critical".toList, emoji := "💥".toList }

/-- `level_config.get(record.levelno, level_config[logging.WARNING])`: the
dict lookup with the WARNING entry as default. -/
def levelConfigGet (levelno : Nat) : LevelConfig :=
  if levelno = WARNING then warningConfig
  else if levelno = ERROR then errorConfig
  else if levelno = CRITICAL then criticalConfig
  else warningConfig

/-- The bytes written to `combined_file` in `emit` (decoded back to
characters): header naming the number of buffered entries, the buffer
snapshot text, a separator naming the severity label, then the formatted
text of the record. -/
def combinedFileBody (bufEntries : Nat) (buffer_content : List Char)
    (config : LevelConfig) (log_entry : List Char) : List Char :=
  (s!"=== ПОСЛЕДНИЕ ЛОГИ ({bufEntries} записей) ===\n").toList
    ++ buffer_content
    ++ "\n\n=== ".toList ++ config.log_type ++ " ===\n".toList
    ++ log_entry

/-- The single dict enqueued by the WARNING-and-above branch of `emit`. -/
def emitDocument (levelno : Nat) (log_entry : List Char) (bufEntries : Nat)
    (buffer_content timestamp : List Char) : QueueItem :=
  QueueItem.document
    (combinedFileBody bufEntries buffer_content (levelConfigGet levelno) log_entry)
    ((levelConfigGet levelno).filename_tag ++ "_".toList ++ timestamp ++ ".txt".toList)
    ((levelConfigGet levelno).emoji ++ " ".toList ++ (levelConfigGet levelno).log_type)

/-- `TelegramLogHandler.emit`, fault-free semantics: the list of items
enqueued (in order) for a record whose formatted text is `log_entry` and
severity number is `levelno`, when the global ring buffer holds
`bufEntries` entries whose rendered text is `buffer_content`, and
`datetime.now().strftime(...)` yields `timestamp`. -/
def emit (levelno : Nat) (log_entry : List Char) (bufEntries : Nat)
    (buffer_content timestamp : List Char) : List QueueItem :=
  if levelno ≥ WARNING then
    [emitDocument levelno log_entry bufEntries buffer_content timestamp]
  else
    (emitTextChunks log_entry).map QueueItem.text

/-! ## The Worker (`TelegramLogHandler._worker`)

The worker is an infinite loop that pops one item at a time from the queue
and tries to send it, with a bounded retry loop per item.  We model a run
of the worker over a finite queue as the trace of observable events it
produces.  The outcome of each transport call (`bot.send_message` /
`bot.send_document`) is a parameter: for a given item, attempt number `r`
(the value of the local `retries` counter, so `r = 0, 1, 2, ...`) either
succeeds, raises `TelegramRetryAfter` with a server wait, or raises some
other exception. -/

/-- Outcome of one transport call inside `_worker`. -/
inductive SendOutcome where
  | success : SendOutcome
  | retryAfterExc (retry_after : Nat) : SendOutcome
  | otherExc : SendOutcome
  deriving DecidableEq, Repr

/-- Observable events of a worker run.  `send i r` is a transport attempt
for the queue item at position `i` made while `retries = r`; `floodSleep`
and `backoffSleep` are the `asyncio.sleep` calls of the two `except`
branches; `dropped i` is the `logging.error` emitted when `MAX_RETRIES`
attempts were exhausted; `rateSleep` is `asyncio.sleep(RATE_LIMIT)`;
`done i` is `self._queue.task_done()`. -/
inductive WorkerEvent where
  | send (item : Nat) (attempt : Nat) : WorkerEvent
  | floodSleep (secs : Nat) : WorkerEvent
  | backoffSleep (secs : Nat) : WorkerEvent
  | dropped (item : Nat) : WorkerEvent
  | rateSleep : WorkerEvent
  | done (item : Nat) : WorkerEvent
  deriving DecidableEq, Repr

/-- The `while not sent and retries < self.MAX_RETRIES` loop of `_worker`
for the item at position `item`, starting from the given `retries` value;
`fuel = MAX_RETRIES - retries` bounds the remaining iterations exactly as
the loop guard does.  Returns the events of the loop and the final value
of `sent`.

On `TelegramRetryAfter e` the code sleeps `e.retry_after + 2` seconds; on
any other exception it sleeps `min(TIME_SLEEP * retries, 60)` seconds
(with `retries` read **before** it is incremented); in both cases
`retries` then increases by one. -/
def sendLoopGo (outcome : Nat → SendOutcome) (item : Nat) :
    Nat → Nat → List WorkerEvent × Bool
  | _, 0 => ([], false)
  | retries, fuel + 1 =>
    match outcome retries with
    | .success => ([WorkerEvent.send item retries], true)
    | .retryAfterExc d =>
      let rest := sendLoopGo outcome item (retries + 1) fuel
      (WorkerEvent.send item retries :: WorkerEvent.floodSleep (d + 2) :: rest.1, rest.2)
    | .otherExc =>
      let rest := sendLoopGo outcome item (retries + 1) fuel
      (WorkerEvent.send item retries ::
        WorkerEvent.backoffSleep (min (TIME_SLEEP * retries) 60) :: rest.1, rest.2)

/-- The retry loop of `_worker` for one item, from `retries = 0`. -/
def sendItem (outcome : Nat → SendOutcome) (item : Nat) : List WorkerEvent × Bool :=
  sendLoopGo outcome item 0 MAX_RETRIES

/-- One full iteration of the outer `while True` loop of `_worker` for the
item at position `item`: the retry loop, then `logging.error` if the item
was never sent, then the rate-limit sleep and `task_done()`. -/
def workerStep (outcome : Nat → SendOutcome) (item : Nat) : List WorkerEvent :=
  (sendItem outcome item).1
    ++ (if (sendItem outcome item).2 then [] else [WorkerEvent.dropped item])
    ++ [WorkerEvent.rateSleep, WorkerEvent.done item]

/-- A run of `_worker` that drains a queue holding `queue` (the items at
positions `idx, idx+1, ...`), with `behavior i r` the outcome of attempt
`r` for the item at position `i`.  The worker pops items strictly in FIFO
order and fully processes each before touching the next. -/
def workerTrace (behavior : Nat → Nat → SendOutcome) :
    Nat → List QueueItem → List WorkerEvent
  | _, [] => []
  | idx, _ :: rest => workerStep (behavior idx) idx ++ workerTrace behavior (idx + 1) rest

/-! ## The manual notifier (`send_chat_info_log`)

`send_chat_info_log` runs its own retry loop around
`bot_info_log.send_message`.  Unlike the worker it distinguishes a third
exception, `TelegramMigrateToChat`, which `break`s out of the loop. -/

/-- Outcome of one `send_message` call inside `send_chat_info_log`. -/
inductive NotifyOutcome where
  | success : NotifyOutcome
  | retryAfterExc (retry_after : Nat) : NotifyOutcome
  | migrateExc : NotifyOutcome
  | otherExc : NotifyOutcome
  deriving DecidableEq, Repr

/-- Observable events of a `send_chat_info_log` run.  `send r` is the
`send_message` call made while `retries = r`; `sleep` is `asyncio.sleep`;
`warnMigrate` is the `logging.warning` of the `TelegramMigrateToChat`
branch; `errorTrace` is the final `logging.error` when nothing was sent. -/
inductive NotifyEvent where
  | send (attempt : Nat) : NotifyEvent
  | sleep (secs : Nat) : NotifyEvent
  | warnMigrate : NotifyEvent
  | errorTrace : NotifyEvent
  deriving DecidableEq, Repr

/-- The `while not sent and retries < max_retries` loop of
`send_chat_info_log`, starting from the given `retries` value with
`fuel = max_retries - retries` remaining iterations.

On `TelegramRetryAfter e` the code increments `retries` and sleeps
`e.retry_after + 2` seconds; on `TelegramMigrateToChat` it logs a warning
and `break`s; on any other exception it increments `retries` and sleeps 5
seconds only if `retries < max_retries` still holds after the
increment. -/
def notifyGo (outcome : Nat → NotifyOutcome) (max_retries : Nat) :
    Nat → Nat → List NotifyEvent × Bool
  | _, 0 => ([], false)
  | retries, fuel + 1 =>
    match outcome retries with
    | .success => ([NotifyEvent.send retries], true)
    | .retryAfterExc d =>
      let rest := notifyGo outcome max_retries (retries + 1) fuel
      (NotifyEvent.send retries :: NotifyEvent.sleep (d + 2) :: rest.1, rest.2)
    | .migrateExc => ([NotifyEvent.send retries, NotifyEvent.warnMigrate], false)
    | .otherExc =>
      let rest := notifyGo outcome max_retries (retries + 1) fuel
      (NotifyEvent.send retries ::
        ((if retries + 1 < max_retries then [NotifyEvent.sleep 5] else []) ++ rest.1), rest.2)

/-- A full run of `send_chat_info_log`: the retry loop from `retries = 0`
followed by the final `logging.error` if nothing was sent. -/
def notifyRun (outcome : Nat → NotifyOutcome) (max_retries : Nat) : List NotifyEvent :=
  (notifyGo outcome max_retries 0 max_retries).1
    ++ (if (notifyGo outcome max_retries 0 max_retries).2 then [] else [NotifyEvent.errorTrace])

/-! ## Fault-injected `emit` (`try`/`except` boundary)

The whole body of `emit` sits inside `try: ... except Exception:
self.handleError(record)`.  We re-run `emit` with an injected fault at
each fallible operation: `self.format(record)`, the ring-buffer read
(`get_logs_as_text` / `len(global_buffer_handler.buffer)`), and each
`put_nowait` call (numbered from 0 in call order).  The result is the
list of items actually enqueued before any failure together with the
exception routed to `handleError`, if any; the function is total, which is
the embedded form of "no exception escapes `emit`". -/

/-- Exceptions are identified by an opaque code. -/
abbrev Exc := Nat

/-- The `for` loop of the INFO branch with a possibly failing
`put_nowait`: `enqErr k` is the fault injected into the `k`-th
`put_nowait` call.  Items enqueued before the failing call stay in the
queue; the exception aborts the loop. -/
def enqueueChunks (enqErr : Nat → Option Exc) :
    Nat → List QueueItem → List QueueItem × Option Exc
  | _, [] => ([], none)
  | k, i :: rest =>
    match enqErr k with
    | some e => ([], some e)
    | none =>
      let r := enqueueChunks enqErr (k + 1) rest
      (i :: r.1, r.2)

/-- `emit` with injected faults.  Returns the items that reached the
queue and `some e` exactly when the body raised `e`, in which case the
`except Exception` clause routed `e` to `self.handleError(record)`. -/
def emitRun (fmtErr snapErr : Option Exc) (enqErr : Nat → Option Exc)
    (levelno : Nat) (log_entry : List Char) (bufEntries : Nat)
    (buffer_content timestamp : List Char) : List QueueItem × Option Exc :=
  match fmtErr with
  | some e => ([], some e)
  | none =>
    if levelno ≥ WARNING then
      match snapErr with
      | some e => ([], some e)
      | none =>
        match enqErr 0 with
        | some e => ([], some e)
        | none => ([emitDocument levelno log_entry bufEntries buffer_content timestamp], none)
    else
      enqueueChunks enqErr 0 ((emitTextChunks log_entry).map QueueItem.text)

/-! ## Worker start (`TelegramLogHandler._start_worker`)

`_start_worker` creates the worker task only when `self._worker_task` is
still unset (`if not self._worker_task`), so starting twice never creates
a second delivery loop.  Task identities are opaque numbers. -/

/-- The `_worker_task` slot of a handler instance. -/
structure HandlerState where
  worker_task : Option Nat
  deriving DecidableEq, Repr

/-- `TelegramLogHandler._start_worker`: `fresh` is the task that
`asyncio.create_task(self._worker())` would return.  The second component
records whether a task was actually created by this call. -/
def start_worker (s : HandlerState) (fresh : Nat) : HandlerState × Bool :=
  match s.worker_task with
  | none => ({ worker_task := some fresh }, true)
  | some _ => (s, false)

/-- A sequence of `_start_worker` calls, returning the final state and the
number of worker tasks created over the whole sequence. -/
def startMany : HandlerState → List Nat → HandlerState × Nat
  | s, [] => (s, 0)
  | s, f :: rest =>
    let r := start_worker s f
    let more := startMany r.1 rest
    (more.1, (if r.2 then 1 else 0) + more.2)

/-- Undo the `[idx/total] ` markers: drop the marker from each chunk that
`markChunks` produced. -/
def stripChunks (total : Nat) : Nat → List (List Char) → List (List Char)
  | _, [] => []
  | idx, c :: rest =>
    (if total > 1 then c.drop (chunkMarker idx total).length else c)
      :: stripChunks total (idx + 1) rest

/-- The attempt numbers of the `send_message` calls in a notifier trace. -/
def notifySends (tr : List NotifyEvent) : List Nat :=
  tr.filterMap fun e => match e with | NotifyEvent.send r => some r | _ => none

/-- The durations of the `asyncio.sleep` calls in a notifier trace. -/
def notifySleeps (tr : List NotifyEvent) : List Nat :=
  tr.filterMap fun e => match e with | NotifyEvent.sleep s => some s | _ => none

/-- A sample notifier transport mixing failure kinds: a flood-control
failure on the first attempt, then generic failures. -/
def notifyMixedFailures : Nat → NotifyOutcome :=
  fun j => if j = 0 then NotifyOutcome.retryAfterExc 7 else NotifyOutcome.otherExc

/-- The number of transport attempts for the item at queue position `i`
in a worker trace. -/
def sendCount (i : Nat) (tr : List WorkerEvent) : Nat :=
  (tr.filter fun e => match e with | WorkerEvent.send j _ => j == i | _ => false).length

/-- The queue positions of the items the worker hands to the transport,
in trace order. -/
def sendSeq (tr : List WorkerEvent) : List Nat :=
  tr.filterMap fun e => match e with | WorkerEvent.send i _ => some i | _ => none

/-! ## Supporting lemmas -/

-- Basic facts about `splitGo` / `splitMessage`.

theorem splitGo_flatten (fuel : Nat) (msg : List Char) (h : msg.length ≤ fuel) :
    (splitGo fuel msg).flatten = msg := by
  induction fuel generalizing msg with
  | zero =>
    have : msg = [] := List.length_eq_zero.mp (Nat.le_zero.mp h)
    simp [this, splitGo]
  | succ fuel ih =>
    match msg with
    | [] => simp [splitGo]
    | c :: cs =>
      have hd : ((c :: cs).drop MAX_MESSAGE_LENGTH).length ≤ fuel := by
        have := h
        simp only [List.length_drop, List.length_cons, MAX_MESSAGE_LENGTH] at *
        omega
      simp only [splitGo, List.flatten_cons, ih _ hd, List.take_append_drop]

theorem splitGo_chunk_le (fuel : Nat) (msg : List Char) (c : List Char)
    (hc : c ∈ splitGo fuel msg) : c.length ≤ MAX_MESSAGE_LENGTH := by
  induction fuel generalizing msg with
  | zero => simp [splitGo] at hc
  | succ fuel ih =>
    match msg with
    | [] => simp [splitGo] at hc
    | x :: xs =>
      simp only [splitGo, List.mem_cons] at hc
      rcases hc with h | h
      · subst h
        simp only [List.length_take]
        omega
      · exact ih _ h

theorem splitGo_length (fuel : Nat) (msg : List Char) (h : msg.length ≤ fuel) :
    (splitGo fuel msg).length = (msg.length + (MAX_MESSAGE_LENGTH - 1)) / MAX_MESSAGE_LENGTH := by
  induction fuel generalizing msg with
  | zero =>
    have : msg = [] := List.length_eq_zero.mp (Nat.le_zero.mp h)
    subst this
    simp only [splitGo, List.length_nil, Nat.zero_add, MAX_MESSAGE_LENGTH]
  | succ fuel ih =>
    match msg with
    | [] =>
      simp only [splitGo, List.length_nil, Nat.zero_add, MAX_MESSAGE_LENGTH]
    | c :: cs =>
      have hd : ((c :: cs).drop MAX_MESSAGE_LENGTH).length ≤ fuel := by
        have := h
        simp only [List.length_drop, List.length_cons, MAX_MESSAGE_LENGTH] at *
        omega
      have hrec := ih _ hd
      rw [List.length_drop] at hrec
      simp only [splitGo, List.length_cons, hrec]
      simp only [List.length_cons, MAX_MESSAGE_LENGTH]
      omega

theorem splitMessage_flatten (msg : List Char) : (splitMessage msg).flatten = msg :=
  splitGo_flatten msg.length msg (Nat.le_refl _)

theorem splitMessage_chunk_le (msg : List Char) (c : List Char)
    (hc : c ∈ splitMessage msg) : c.length ≤ MAX_MESSAGE_LENGTH :=
  splitGo_chunk_le msg.length msg c hc

theorem splitMessage_length (msg : List Char) :
    (splitMessage msg).length = (msg.length + (MAX_MESSAGE_LENGTH - 1)) / MAX_MESSAGE_LENGTH :=
  splitGo_length msg.length msg (Nat.le_refl _)

theorem markChunks_length (total idx : Nat) (l : List (List Char)) :
    (markChunks total idx l).length = l.length := by
  induction l generalizing idx with
  | nil => simp [markChunks]
  | cons c rest ih => simp [markChunks, ih]

theorem splitGo_nil (fuel : Nat) : splitGo fuel [] = [] := by
  cases fuel <;> rfl

theorem splitGo_all (fuel : Nat) (msg : List Char) (h0 : msg ≠ [])
    (h1 : msg.length ≤ MAX_MESSAGE_LENGTH) (h2 : msg.length ≤ fuel) :
    splitGo fuel msg = [msg] := by
  match fuel, msg with
  | 0, msg =>
    exact absurd (List.length_eq_zero.mp (Nat.le_zero.mp h2)) h0
  | fuel + 1, c :: cs =>
    rw [splitGo, List.take_of_length_le h1, List.drop_eq_nil_of_le h1, splitGo_nil]

/-- A message longer than one chunk but at most two chunks splits into
exactly its first `MAX_MESSAGE_LENGTH` characters and the remainder. -/
theorem splitMessage_two (msg : List Char) (h1 : MAX_MESSAGE_LENGTH < msg.length)
    (h2 : msg.length ≤ 2 * MAX_MESSAGE_LENGTH) :
    splitMessage msg = [msg.take MAX_MESSAGE_LENGTH, msg.drop MAX_MESSAGE_LENGTH] := by
  match msg with
  | [] => simp [MAX_MESSAGE_LENGTH] at h1
  | c :: cs =>
    show splitGo (c :: cs).length (c :: cs) = _
    rw [List.length_cons, splitGo]
    congr 1
    have hlen : ((c :: cs).drop MAX_MESSAGE_LENGTH).length = (c :: cs).length - MAX_MESSAGE_LENGTH :=
      List.length_drop _ _
    refine splitGo_all cs.length _ ?_ ?_ ?_
    · intro hnil
      rw [hnil] at hlen
      simp only [List.length_nil, List.length_cons, MAX_MESSAGE_LENGTH] at hlen
      simp only [List.length_cons, MAX_MESSAGE_LENGTH] at h1
      omega
    · rw [hlen]
      simp only [List.length_cons, MAX_MESSAGE_LENGTH] at h2 ⊢
      omega
    · rw [hlen]
      simp only [List.length_cons, MAX_MESSAGE_LENGTH] at h1 ⊢
      omega

theorem stripChunks_markChunks (total : Nat) (l : List (List Char)) :
    ∀ idx, stripChunks total idx (markChunks total idx l) = l := by
  induction l with
  | nil => intro idx; rfl
  | cons c rest ih =>
    intro idx
    by_cases h : total > 1
    · simp only [markChunks, stripChunks, if_pos h, List.drop_left, ih (idx + 1)]
    · simp only [markChunks, stripChunks, if_neg h, ih (idx + 1)]

/-! ## Claims -/

/-- C1 counterexample: for a formatted INFO message of 4001 characters,
the first enqueued chunk is `"[1/2] "` followed by the first 4000
characters, i.e. 4006 characters long — more than the 4000-character
bound the claim asserts for every enqueued chunk. -/
theorem C1_counterexample :
    ((emitTextChunks (List.replicate 4001 'a')).head?.map List.length) = some 4006
      ∧ 4000 < 4006 := by
  have hsplit : splitMessage (List.replicate 4001 'a')
      = [List.replicate 4000 'a', List.replicate 1 'a'] := by
    rw [splitMessage_two]
    · rw [List.take_replicate, List.drop_replicate]
      norm_num [MAX_MESSAGE_LENGTH]
    · rw [List.length_replicate]
      norm_num [MAX_MESSAGE_LENGTH]
    · rw [List.length_replicate]
      norm_num [MAX_MESSAGE_LENGTH]
  have hmark : (chunkMarker 1 2).length = 6 := by decide
  rw [emitTextChunks, hsplit]
  refine ⟨?_, by norm_num⟩
  have h2 : ([List.replicate 4000 'a', List.replicate 1 'a'] : List (List Char)).length = 2 :=
    rfl
  rw [h2, markChunks, if_pos (by norm_num : 2 > 1), List.head?_cons, Option.map_some',
    List.length_append, hmark, List.length_replicate]

/-- C1 amended: for severities strictly below WARNING, `emit` enqueues
exactly `ceil(len(formatted)/4000)` text chunks; each enqueued chunk is at
most 4000 characters **once its `[i/total]` marker is removed** (the
marker is prepended on top of the 4000-character slice, so a multi-chunk
message yields enqueued strings longer than 4000 characters); and the
concatenation of the chunks with their markers removed equals the
original formatted text. -/
theorem C1_amended (levelno : Nat) (hlv : levelno < WARNING) (log_entry : List Char)
    (bufEntries : Nat) (buffer_content timestamp : List Char) :
    emit levelno log_entry bufEntries buffer_content timestamp
        = (emitTextChunks log_entry).map QueueItem.text
    ∧ (emitTextChunks log_entry).length
        = (log_entry.length + (MAX_MESSAGE_LENGTH - 1)) / MAX_MESSAGE_LENGTH
    ∧ (∀ c ∈ stripChunks (splitMessage log_entry).length 1 (emitTextChunks log_entry),
        c.length ≤ MAX_MESSAGE_LENGTH)
    ∧ (stripChunks (splitMessage log_entry).length 1 (emitTextChunks log_entry)).flatten
        = log_entry := by
  refine ⟨?_, ?_, ?_, ?_⟩
  · rw [emit, if_neg (by omega)]
  · rw [emitTextChunks, markChunks_length, splitMessage_length]
  · intro c hc
    rw [emitTextChunks, stripChunks_markChunks] at hc
    exact splitMessage_chunk_le log_entry c hc
  · rw [emitTextChunks, stripChunks_markChunks, splitMessage_flatten]

/-- If no attempt before `r` succeeded, the worker retry loop reaches the
state `retries = r`, and the trace from there on is the loop run from `r`
with the remaining `MAX_RETRIES - r` iterations of budget. -/
theorem sendLoopGo_reach (outcome : Nat → SendOutcome) (item : Nat) (r : Nat)
    (hr : r ≤ MAX_RETRIES)
    (hfail : ∀ j, j < r → outcome j ≠ SendOutcome.success) :
    ∃ pre, (sendItem outcome item).1 = pre ++ (sendLoopGo outcome item r (MAX_RETRIES - r)).1
      ∧ (sendItem outcome item).2 = (sendLoopGo outcome item r (MAX_RETRIES - r)).2 := by
  induction r with
  | zero => exact ⟨[], rfl, rfl⟩
  | succ r ih =>
    obtain ⟨pre, hpre, hsent⟩ := ih (Nat.le_of_succ_le hr)
      (fun j hj => hfail j (Nat.lt_succ_of_lt hj))
    have hfuel : MAX_RETRIES - r = (MAX_RETRIES - (r + 1)) + 1 := by
      simp only [MAX_RETRIES] at *
      omega
    rw [hfuel] at hpre hsent
    cases houtcome : outcome r with
    | success => exact absurd houtcome (hfail r (Nat.lt_succ_self r))
    | retryAfterExc d =>
      refine ⟨pre ++ [WorkerEvent.send item r, WorkerEvent.floodSleep (d + 2)], ?_, ?_⟩
      · rw [hpre, sendLoopGo, houtcome, List.append_assoc]
        rfl
      · rw [hsent, sendLoopGo, houtcome]
    | otherExc =>
      refine ⟨pre ++ [WorkerEvent.send item r,
        WorkerEvent.backoffSleep (min (TIME_SLEEP * r) 60)], ?_, ?_⟩
      · rw [hpre, sendLoopGo, houtcome, List.append_assoc]
        rfl
      · rw [hsent, sendLoopGo, houtcome]

/-- C2 counterexample: with a transport that always fails with a generic
exception, the sleep after the first failed attempt is 0 seconds (the
code computes `min(TIME_SLEEP * retries, 60)` before incrementing
`retries`), not the `min(21 * 1, 60) = 21` seconds the claim asserts. -/
theorem C2_counterexample :
    workerTrace (fun _ _ => SendOutcome.otherExc) 0 [QueueItem.text []] =
      [WorkerEvent.send 0 0, WorkerEvent.backoffSleep 0,
       WorkerEvent.send 0 1, WorkerEvent.backoffSleep 21,
       WorkerEvent.send 0 2, WorkerEvent.backoffSleep 42,
       WorkerEvent.dropped 0, WorkerEvent.rateSleep, WorkerEvent.done 0]
    ∧ (0 : Nat) ≠ min (21 * 1) 60 := by
  constructor
  · rfl
  · decide

/-- C2 amended: in the retry loop of the Worker, the sleep after a
non-flood failure equals `min(21 * (attempt_number - 1), 60)` seconds,
where `attempt_number` counts attempts from 1 — equivalently
`min(TIME_SLEEP * r, 60)` with `r` the zero-based index of the attempt
that just failed.  In particular the sleep after the first failed attempt
is 0 seconds, not 21. -/
theorem C2_amended (outcome : Nat → SendOutcome) (item r : Nat)
    (hr : r < MAX_RETRIES)
    (hfail : ∀ j, j ≤ r → outcome j ≠ SendOutcome.success)
    (hother : outcome r = SendOutcome.otherExc) :
    ∃ pre post, (sendItem outcome item).1 =
      pre ++ WorkerEvent.send item r ::
        WorkerEvent.backoffSleep (min (TIME_SLEEP * r) 60) :: post := by
  obtain ⟨pre, hpre, -⟩ := sendLoopGo_reach outcome item r (Nat.le_of_lt hr)
    (fun j hj => hfail j (Nat.le_of_lt hj))
  have hfuel : MAX_RETRIES - r = (MAX_RETRIES - (r + 1)) + 1 := by
    simp only [MAX_RETRIES] at *
    omega
  rw [hfuel, sendLoopGo, hother] at hpre
  exact ⟨pre, _, hpre⟩

/-- Witness for C2 amended at a concrete always-failing transport: the
sleep following the first attempt is `min(21 * 0, 60) = 0`. -/
theorem C2_amended_witness :
    ∃ pre post, (sendItem (fun _ => SendOutcome.otherExc) 0).1 =
      pre ++ WorkerEvent.send 0 0 ::
        WorkerEvent.backoffSleep (min (TIME_SLEEP * 0) 60) :: post :=
  C2_amended (fun _ => SendOutcome.otherExc) 0 0 (by decide)
    (fun _ _ h => SendOutcome.noConfusion h) rfl

/-- If no attempt before `r` succeeded or hit the migration break, the
notifier retry loop reaches the state `retries = r`, with the remaining
`max_retries - r` iterations of budget. -/
theorem notifyGo_reach (outcome : Nat → NotifyOutcome) (m : Nat) (r : Nat)
    (hr : r ≤ m)
    (hok : ∀ j, j < r → outcome j ≠ NotifyOutcome.success
      ∧ outcome j ≠ NotifyOutcome.migrateExc) :
    ∃ pre, (notifyGo outcome m 0 m).1 = pre ++ (notifyGo outcome m r (m - r)).1
      ∧ (notifyGo outcome m 0 m).2 = (notifyGo outcome m r (m - r)).2 := by
  induction r with
  | zero => exact ⟨[], rfl, rfl⟩
  | succ r ih =>
    obtain ⟨pre, hpre, hsent⟩ := ih (Nat.le_of_succ_le hr)
      (fun j hj => hok j (Nat.lt_succ_of_lt hj))
    have hfuel : m - r = (m - (r + 1)) + 1 := by omega
    rw [hfuel] at hpre hsent
    cases houtcome : outcome r with
    | success => exact absurd houtcome (hok r (Nat.lt_succ_self r)).1
    | migrateExc => exact absurd houtcome (hok r (Nat.lt_succ_self r)).2
    | retryAfterExc d =>
      refine ⟨pre ++ [NotifyEvent.send r, NotifyEvent.sleep (d + 2)], ?_, ?_⟩
      · rw [hpre, notifyGo, houtcome, List.append_assoc]
        rfl
      · rw [hsent, notifyGo, houtcome]
    | otherExc =>
      refine ⟨pre ++ NotifyEvent.send r ::
        (if r + 1 < m then [NotifyEvent.sleep 5] else []), ?_, ?_⟩
      · rw [hpre, notifyGo, houtcome, List.append_assoc]
        by_cases hlt : r + 1 < m
        · rw [if_pos hlt]
          rfl
        · rw [if_neg hlt]
          rfl
      · rw [hsent, notifyGo, houtcome]

/-- C3 counterexample: a `TelegramMigrateToChat` failure is not a
flood-control signal, yet `send_chat_info_log` neither waits 5 seconds
nor retries after it — it breaks out of the loop after a single attempt
and immediately records the local error trace, although
`max_retries = 3` attempts were claimed. -/
theorem C3_counterexample :
    notifyRun (fun _ => NotifyOutcome.migrateExc) 3 =
      [NotifyEvent.send 0, NotifyEvent.warnMigrate, NotifyEvent.errorTrace]
    ∧ (notifySends (notifyRun (fun _ => NotifyOutcome.migrateExc) 3)).length = 1
    ∧ (1 : Nat) ≠ 3 := by
  refine ⟨rfl, rfl, by decide⟩

/-- When every attempt in the window `[r, r + fuel)` fails without a
migration signal (any mix of flood-control and generic failures), the
notifier loop makes exactly `fuel` further `send_message` attempts and
ends with `sent = False`. -/
theorem notifyGo_fail_count (outcome : Nat → NotifyOutcome) (m : Nat) :
    ∀ fuel r, (∀ j, r ≤ j → j < r + fuel →
        outcome j ≠ NotifyOutcome.success ∧ outcome j ≠ NotifyOutcome.migrateExc) →
      (notifySends ((notifyGo outcome m r fuel).1)).length = fuel
      ∧ (notifyGo outcome m r fuel).2 = false := by
  intro fuel
  induction fuel with
  | zero => intro r _; exact ⟨rfl, rfl⟩
  | succ fuel ih =>
    intro r hfail
    have hr0 := hfail r (Nat.le_refl r) (by omega)
    have hrec := ih (r + 1) (fun j h1 h2 => hfail j (by omega) (by omega))
    rw [notifyGo]
    cases houtcome : outcome r with
    | success => exact absurd houtcome hr0.1
    | migrateExc => exact absurd houtcome hr0.2
    | retryAfterExc d =>
      refine ⟨?_, hrec.2⟩
      show (notifySends (NotifyEvent.send r :: NotifyEvent.sleep (d + 2)
        :: (notifyGo outcome m (r + 1) fuel).1)).length = fuel + 1
      have := hrec.1
      rw [notifySends] at this ⊢
      simp [List.filterMap_cons, this]
    | otherExc =>
      refine ⟨?_, hrec.2⟩
      show (notifySends (NotifyEvent.send r ::
        ((if r + 1 < m then [NotifyEvent.sleep 5] else [])
          ++ (notifyGo outcome m (r + 1) fuel).1))).length = fuel + 1
      have := hrec.1
      rw [notifySends] at this ⊢
      by_cases hlt : r + 1 < m
      · rw [if_pos hlt]
        simp [List.filterMap_cons, List.filterMap_append, this]
      · rw [if_neg hlt]
        simp [List.filterMap_cons, List.filterMap_append, this]

/-- C3 amended: at any reachable attempt `r` — regardless of the mix of
flood-control and generic failures before it — a send failure inside
`send_chat_info_log` that is neither a flood-control signal nor a
chat-migration signal is retried after a fixed 5-second sleep, the loop
continuing at `retries = r + 1` (no sleep follows the final failed
attempt, which is followed by the local error trace instead); when every
attempt fails without a migration signal, the call makes exactly
`max_retries` attempts in total and only then gives up and records the
local error trace.  A `TelegramMigrateToChat` failure, however, is not
treated this way: it aborts the loop immediately after its attempt,
logging a warning and then the error trace. -/
theorem C3_amended (outcome : Nat → NotifyOutcome) (m r : Nat) (hr : r < m)
    (hok : ∀ j, j < r → outcome j ≠ NotifyOutcome.success
      ∧ outcome j ≠ NotifyOutcome.migrateExc) :
    (outcome r = NotifyOutcome.otherExc → r + 1 < m →
      ∃ pre, (notifyGo outcome m 0 m).1
          = pre ++ NotifyEvent.send r :: NotifyEvent.sleep 5
            :: (notifyGo outcome m (r + 1) (m - (r + 1))).1
        ∧ (notifyGo outcome m 0 m).2 = (notifyGo outcome m (r + 1) (m - (r + 1))).2)
    ∧ (outcome r = NotifyOutcome.otherExc → r + 1 = m →
        ∃ pre, notifyRun outcome m = pre ++ [NotifyEvent.send r, NotifyEvent.errorTrace])
    ∧ ((∀ j, j < m → outcome j ≠ NotifyOutcome.success
          ∧ outcome j ≠ NotifyOutcome.migrateExc) →
        (notifySends (notifyRun outcome m)).length = m
        ∧ (notifyRun outcome m).getLast? = some NotifyEvent.errorTrace)
    ∧ (outcome r = NotifyOutcome.migrateExc →
        ∃ pre, notifyRun outcome m
          = pre ++ [NotifyEvent.send r, NotifyEvent.warnMigrate, NotifyEvent.errorTrace]) := by
  refine ⟨?_, ?_, ?_, ?_⟩
  · intro hother hlt
    obtain ⟨pre, hpre, hsent⟩ := notifyGo_reach outcome m r (Nat.le_of_lt hr) hok
    have hfuel : m - r = (m - (r + 1)) + 1 := by omega
    rw [hfuel, notifyGo, hother] at hpre hsent
    rw [if_pos hlt] at hpre
    exact ⟨pre, hpre, hsent⟩
  · intro hother hlast
    obtain ⟨pre, hpre, hsent⟩ := notifyGo_reach outcome m r (Nat.le_of_lt hr) hok
    have hfuel : m - r = (m - (r + 1)) + 1 := by omega
    rw [hfuel, notifyGo, hother] at hpre hsent
    rw [if_neg (by omega)] at hpre
    have hz : m - (r + 1) = 0 := by omega
    rw [hz] at hpre hsent
    refine ⟨pre, ?_⟩
    rw [notifyRun, hsent, hpre]
    simp [notifyGo]
  · intro hall
    have hcount := notifyGo_fail_count outcome m m 0
      (fun j h0 hj => hall j (by omega))
    have hrun : notifyRun outcome m
        = (notifyGo outcome m 0 m).1 ++ [NotifyEvent.errorTrace] := by
      rw [notifyRun, hcount.2]
      rfl
    constructor
    · rw [hrun, notifySends, List.filterMap_append]
      have := hcount.1
      rw [notifySends] at this
      simp [this]
    · rw [hrun, List.getLast?_concat]
  · intro hmig
    obtain ⟨pre, hpre, hsent⟩ := notifyGo_reach outcome m r (Nat.le_of_lt hr) hok
    have hfuel : m - r = (m - (r + 1)) + 1 := by omega
    rw [hfuel, notifyGo, hmig] at hpre hsent
    refine ⟨pre, ?_⟩
    rw [notifyRun, hsent, hpre]
    simp

/-- Witness for C3 amended at `max_retries = 3` and attempt `r = 1` of a
transport that fails with flood control on attempt 0 and generically
afterwards: the 5-second sleep follows the generic failure even after an
earlier flood failure, and all three attempts are made before the error
trace. -/
theorem C3_amended_witness :
    (notifyMixedFailures 1 = NotifyOutcome.otherExc → 1 + 1 < 3 →
      ∃ pre, (notifyGo notifyMixedFailures 3 0 3).1
          = pre ++ NotifyEvent.send 1 :: NotifyEvent.sleep 5
            :: (notifyGo notifyMixedFailures 3 (1 + 1) (3 - (1 + 1))).1
        ∧ (notifyGo notifyMixedFailures 3 0 3).2
          = (notifyGo notifyMixedFailures 3 (1 + 1) (3 - (1 + 1))).2)
    ∧ (notifyMixedFailures 1 = NotifyOutcome.otherExc → 1 + 1 = 3 →
        ∃ pre, notifyRun notifyMixedFailures 3
          = pre ++ [NotifyEvent.send 1, NotifyEvent.errorTrace])
    ∧ ((∀ j, j < 3 → notifyMixedFailures j ≠ NotifyOutcome.success
          ∧ notifyMixedFailures j ≠ NotifyOutcome.migrateExc) →
        (notifySends (notifyRun notifyMixedFailures 3)).length = 3
        ∧ (notifyRun notifyMixedFailures 3).getLast? = some NotifyEvent.errorTrace)
    ∧ (notifyMixedFailures 1 = NotifyOutcome.migrateExc →
        ∃ pre, notifyRun notifyMixedFailures 3
          = pre ++ [NotifyEvent.send 1, NotifyEvent.warnMigrate, NotifyEvent.errorTrace]) :=
  C3_amended notifyMixedFailures 3 1 (by decide)
    (fun j hj => by
      have hj0 : j = 0 := by omega
      subst hj0
      exact ⟨by decide, by decide⟩)

/-- C4: for every record of severity at or above WARNING, `emit`
enqueues exactly one file payload and no text chunks; the payload body
begins with the header stating the number of entries currently in the
ring buffer and ends with the formatted text of the record. -/
theorem C4_file_payload (levelno : Nat) (h : WARNING ≤ levelno) (log_entry : List Char)
    (bufEntries : Nat) (buffer_content timestamp : List Char) :
    emit levelno log_entry bufEntries buffer_content timestamp
        = [emitDocument levelno log_entry bufEntries buffer_content timestamp]
    ∧ (s!"=== ПОСЛЕДНИЕ ЛОГИ ({bufEntries} записей) ===\n").toList <+:
        combinedFileBody bufEntries buffer_content (levelConfigGet levelno) log_entry
    ∧ log_entry <:+
        combinedFileBody bufEntries buffer_content (levelConfigGet levelno) log_entry := by
  refine ⟨?_, ?_, ?_⟩
  · rw [emit, if_pos h]
  · rw [combinedFileBody]
    simp only [List.append_assoc]
    exact List.prefix_append _ _
  · rw [combinedFileBody]
    simp only [List.append_assoc]
    exact ((((List.suffix_append _ log_entry).trans (List.suffix_append _ _)).trans
      (List.suffix_append _ _)).trans (List.suffix_append _ _)).trans (List.suffix_append _ _)

/-- Witness for C4 at an ERROR-level record. -/
theorem C4_file_payload_witness :
    emit 40 "boom".toList 2 "b\nc".toList "T".toList
        = [emitDocument 40 "boom".toList 2 "b\nc".toList "T".toList]
    ∧ (s!"=== ПОСЛЕДНИЕ ЛОГИ ({(2 : Nat)} записей) ===\n").toList <+:
        combinedFileBody 2 "b\nc".toList (levelConfigGet 40) "boom".toList
    ∧ "boom".toList <:+
        combinedFileBody 2 "b\nc".toList (levelConfigGet 40) "boom".toList :=
  C4_file_payload 40 (by decide) "boom".toList 2 "b\nc".toList "T".toList

theorem sendCount_append (i : Nat) (l1 l2 : List WorkerEvent) :
    sendCount i (l1 ++ l2) = sendCount i l1 + sendCount i l2 := by
  rw [sendCount, sendCount, sendCount, List.filter_append, List.length_append]

theorem sendLoopGo_mem_send (outcome : Nat → SendOutcome) (item : Nat) :
    ∀ fuel r j a, WorkerEvent.send j a ∈ (sendLoopGo outcome item r fuel).1 → j = item := by
  intro fuel
  induction fuel with
  | zero => intro r j a h; simp [sendLoopGo] at h
  | succ fuel ih =>
    intro r j a h
    rw [sendLoopGo] at h
    cases houtcome : outcome r with
    | success =>
      rw [houtcome] at h
      simp only [List.mem_singleton, WorkerEvent.send.injEq] at h
      exact h.1
    | retryAfterExc d =>
      rw [houtcome] at h
      simp only [List.mem_cons, WorkerEvent.send.injEq] at h
      rcases h with ⟨hj, -⟩ | h | h
      · exact hj
      · exact absurd h (by simp)
      · exact ih (r + 1) j a h
    | otherExc =>
      rw [houtcome] at h
      simp only [List.mem_cons, WorkerEvent.send.injEq] at h
      rcases h with ⟨hj, -⟩ | h | h
      · exact hj
      · exact absurd h (by simp)
      · exact ih (r + 1) j a h

theorem workerTrace_mem_send (behavior : Nat → Nat → SendOutcome) :
    ∀ (q : List QueueItem) (idx j a : Nat),
      WorkerEvent.send j a ∈ workerTrace behavior idx q → idx ≤ j := by
  intro q
  induction q with
  | nil => intro idx j a h; simp [workerTrace] at h
  | cons x rest ih =>
    intro idx j a h
    rw [workerTrace, List.mem_append] at h
    rcases h with h | h
    · rw [workerStep, List.mem_append, List.mem_append] at h
      rcases h with (h | h) | h
      · exact (sendLoopGo_mem_send (behavior idx) idx MAX_RETRIES 0 j a h).ge
      · rcases em ((sendItem (behavior idx) idx).2 = true) with hs | hs
        · simp [hs] at h
        · simp [Bool.not_eq_true] at hs
          simp [hs] at h
      · simp at h
    · exact Nat.le_of_succ_le (ih (idx + 1) j a h)

theorem sendLoopGo_allfail (outcome : Nat → SendOutcome) (item : Nat)
    (hfail : ∀ r, outcome r ≠ SendOutcome.success) :
    ∀ fuel r, sendCount item (sendLoopGo outcome item r fuel).1 = fuel
      ∧ (sendLoopGo outcome item r fuel).2 = false := by
  intro fuel
  induction fuel with
  | zero => intro r; exact ⟨rfl, rfl⟩
  | succ fuel ih =>
    intro r
    rw [sendLoopGo]
    cases houtcome : outcome r with
    | success => exact absurd houtcome (hfail r)
    | retryAfterExc d =>
      refine ⟨?_, (ih (r + 1)).2⟩
      have hrec := (ih (r + 1)).1
      rw [sendCount] at hrec
      show sendCount item (WorkerEvent.send item r :: WorkerEvent.floodSleep (d + 2)
          :: (sendLoopGo outcome item (r + 1) fuel).1) = fuel + 1
      simp [sendCount, hrec]
    | otherExc =>
      refine ⟨?_, (ih (r + 1)).2⟩
      have hrec := (ih (r + 1)).1
      rw [sendCount] at hrec
      show sendCount item (WorkerEvent.send item r
          :: WorkerEvent.backoffSleep (min (TIME_SLEEP * r) 60)
          :: (sendLoopGo outcome item (r + 1) fuel).1) = fuel + 1
      simp [sendCount, hrec]

theorem workerTrace_no_earlier_send (behavior : Nat → Nat → SendOutcome)
    (q : List QueueItem) (idx i : Nat) (h : i < idx) :
    sendCount i (workerTrace behavior idx q) = 0 := by
  rw [sendCount, List.length_eq_zero]
  rw [List.filter_eq_nil_iff]
  intro e he
  cases e with
  | send j a =>
    have := workerTrace_mem_send behavior q idx j a he
    simp only [Bool.not_eq_true, beq_eq_false_iff_ne, ne_eq]
    omega
  | floodSleep s => simp
  | backoffSleep s => simp
  | dropped j => simp
  | rateSleep => simp
  | done j => simp

/-- C5: with a transport that fails on every attempt for the item at the
head of the queue, the Worker makes exactly `MAX_RETRIES` send attempts
for that item, records the local error trace (`dropped`) for it, and then
proceeds with the rest of the queue — the item never blocks the queue. -/
theorem C5_retry_bound (behavior : Nat → Nat → SendOutcome) (idx : Nat)
    (q : QueueItem) (rest : List QueueItem)
    (hfail : ∀ r, behavior idx r ≠ SendOutcome.success) :
    sendCount idx (workerTrace behavior idx (q :: rest)) = MAX_RETRIES
    ∧ WorkerEvent.dropped idx ∈ workerTrace behavior idx (q :: rest)
    ∧ workerTrace behavior idx (q :: rest)
        = workerStep (behavior idx) idx ++ workerTrace behavior (idx + 1) rest := by
  have hloop := sendLoopGo_allfail (behavior idx) idx hfail MAX_RETRIES 0
  have hstep : workerStep (behavior idx) idx
      = (sendItem (behavior idx) idx).1
        ++ [WorkerEvent.dropped idx] ++ [WorkerEvent.rateSleep, WorkerEvent.done idx] := by
    rw [workerStep, sendItem, hloop.2]
    simp
  refine ⟨?_, ?_, rfl⟩
  · rw [workerTrace, sendCount_append, hstep, sendCount_append, sendCount_append]
    have h1 : sendCount idx (sendItem (behavior idx) idx).1 = MAX_RETRIES := hloop.1
    have h2 : sendCount idx [WorkerEvent.dropped idx] = 0 := rfl
    have h3 : sendCount idx [WorkerEvent.rateSleep, WorkerEvent.done idx] = 0 := rfl
    have h4 : sendCount idx (workerTrace behavior (idx + 1) rest) = 0 :=
      workerTrace_no_earlier_send behavior rest (idx + 1) idx (Nat.lt_succ_self idx)
    rw [h1, h2, h3, h4]
    omega
  · rw [workerTrace, hstep]
    simp

/-- Witness for C5 with an always-failing transport and a two-item
queue. -/
theorem C5_retry_bound_witness :
    sendCount 0 (workerTrace (fun _ _ => SendOutcome.otherExc) 0
        [QueueItem.text [], QueueItem.text ['x']]) = MAX_RETRIES
    ∧ WorkerEvent.dropped 0 ∈ workerTrace (fun _ _ => SendOutcome.otherExc) 0
        [QueueItem.text [], QueueItem.text ['x']]
    ∧ workerTrace (fun _ _ => SendOutcome.otherExc) 0
          [QueueItem.text [], QueueItem.text ['x']]
        = workerStep ((fun _ _ => SendOutcome.otherExc) 0) 0
          ++ workerTrace (fun _ _ => SendOutcome.otherExc) 1 [QueueItem.text ['x']] :=
  C5_retry_bound (fun _ _ => SendOutcome.otherExc) 0 (QueueItem.text [])
    [QueueItem.text ['x']] (fun _ h => SendOutcome.noConfusion h)

/-- C6: a flood-control failure carrying a server wait `d` makes both the
Worker and `send_chat_info_log` sleep exactly `d + 2` seconds before the
next attempt, and the failed attempt counts against the retry bound: both
loops continue at `retries = r + 1` with the correspondingly reduced
iteration budget. -/
theorem C6_flood_wait (d : Nat) (wOutcome : Nat → SendOutcome) (item r1 : Nat)
    (hr1 : r1 < MAX_RETRIES)
    (hw : ∀ j, j < r1 → wOutcome j ≠ SendOutcome.success)
    (hwf : wOutcome r1 = SendOutcome.retryAfterExc d)
    (nOutcome : Nat → NotifyOutcome) (m r2 : Nat) (hr2 : r2 < m)
    (hn : ∀ j, j < r2 → nOutcome j ≠ NotifyOutcome.success
      ∧ nOutcome j ≠ NotifyOutcome.migrateExc)
    (hnf : nOutcome r2 = NotifyOutcome.retryAfterExc d) :
    (∃ pre, (sendItem wOutcome item).1
        = pre ++ WorkerEvent.send item r1 :: WorkerEvent.floodSleep (d + 2)
          :: (sendLoopGo wOutcome item (r1 + 1) (MAX_RETRIES - (r1 + 1))).1
      ∧ (sendItem wOutcome item).2
        = (sendLoopGo wOutcome item (r1 + 1) (MAX_RETRIES - (r1 + 1))).2)
    ∧ (∃ pre, (notifyGo nOutcome m 0 m).1
        = pre ++ NotifyEvent.send r2 :: NotifyEvent.sleep (d + 2)
          :: (notifyGo nOutcome m (r2 + 1) (m - (r2 + 1))).1
      ∧ (notifyGo nOutcome m 0 m).2
        = (notifyGo nOutcome m (r2 + 1) (m - (r2 + 1))).2) := by
  constructor
  · obtain ⟨pre, hpre, hsent⟩ := sendLoopGo_reach wOutcome item r1 (Nat.le_of_lt hr1) hw
    have hfuel : MAX_RETRIES - r1 = (MAX_RETRIES - (r1 + 1)) + 1 := by
      simp only [MAX_RETRIES] at *
      omega
    rw [hfuel, sendLoopGo, hwf] at hpre hsent
    exact ⟨pre, hpre, hsent⟩
  · obtain ⟨pre, hpre, hsent⟩ := notifyGo_reach nOutcome m r2 (Nat.le_of_lt hr2) hn
    have hfuel : m - r2 = (m - (r2 + 1)) + 1 := by omega
    rw [hfuel, notifyGo, hnf] at hpre hsent
    exact ⟨pre, hpre, hsent⟩

/-- Witness for C6 with a flood signal of 10 seconds on the first attempt
of both paths: both sleep 12 seconds. -/
theorem C6_flood_wait_witness :
    (∃ pre, (sendItem (fun _ => SendOutcome.retryAfterExc 10) 0).1
        = pre ++ WorkerEvent.send 0 0 :: WorkerEvent.floodSleep (10 + 2)
          :: (sendLoopGo (fun _ => SendOutcome.retryAfterExc 10) 0 (0 + 1)
              (MAX_RETRIES - (0 + 1))).1
      ∧ (sendItem (fun _ => SendOutcome.retryAfterExc 10) 0).2
        = (sendLoopGo (fun _ => SendOutcome.retryAfterExc 10) 0 (0 + 1)
            (MAX_RETRIES - (0 + 1))).2)
    ∧ (∃ pre, (notifyGo (fun _ => NotifyOutcome.retryAfterExc 10) 3 0 3).1
        = pre ++ NotifyEvent.send 0 :: NotifyEvent.sleep (10 + 2)
          :: (notifyGo (fun _ => NotifyOutcome.retryAfterExc 10) 3 (0 + 1) (3 - (0 + 1))).1
      ∧ (notifyGo (fun _ => NotifyOutcome.retryAfterExc 10) 3 0 3).2
        = (notifyGo (fun _ => NotifyOutcome.retryAfterExc 10) 3 (0 + 1) (3 - (0 + 1))).2) :=
  C6_flood_wait 10 (fun _ => SendOutcome.retryAfterExc 10) 0 0 (by decide)
    (fun j hj => absurd hj (Nat.not_lt_zero j)) rfl
    (fun _ => NotifyOutcome.retryAfterExc 10) 3 0 (by decide)
    (fun j hj => absurd hj (Nat.not_lt_zero j)) rfl

theorem enqueueChunks_none_iff (enqErr : Nat → Option Exc) :
    ∀ (l : List QueueItem) (k : Nat),
      (enqueueChunks enqErr k l).2 = none ↔ ∀ j, j < l.length → enqErr (k + j) = none := by
  intro l
  induction l with
  | nil =>
    intro k
    simp [enqueueChunks]
  | cons i rest ih =>
    intro k
    rw [enqueueChunks]
    cases he : enqErr k with
    | some e =>
      simp only [List.length_cons]
      constructor
      · intro h; exact absurd h (by simp)
      · intro h
        have := h 0 (by omega)
        rw [Nat.add_zero] at this
        rw [this] at he
        exact Option.noConfusion he
    | none =>
      show (enqueueChunks enqErr (k + 1) rest).2 = none ↔ _
      rw [ih (k + 1)]
      simp only [List.length_cons]
      constructor
      · intro h j hj
        match j, hj with
        | 0, _ => rw [Nat.add_zero]; exact he
        | j + 1, hj => rw [show k + (j + 1) = k + 1 + j by omega]; exact h j (by omega)
      · intro h j hj
        rw [show k + 1 + j = k + (j + 1) by omega]
        exact h (j + 1) (by omega)

theorem enqueueChunks_ok (enqErr : Nat → Option Exc) :
    ∀ (l : List QueueItem) (k : Nat),
      (enqueueChunks enqErr k l).2 = none → (enqueueChunks enqErr k l).1 = l := by
  intro l
  induction l with
  | nil => intro k _; rfl
  | cons i rest ih =>
    intro k h
    rw [enqueueChunks] at h ⊢
    cases he : enqErr k with
    | some e =>
      rw [he] at h
      exact absurd h (by simp)
    | none =>
      rw [he] at h
      show i :: (enqueueChunks enqErr (k + 1) rest).1 = i :: rest
      rw [ih (k + 1) h]

theorem enqueueChunks_err (enqErr : Nat → Option Exc) :
    ∀ (l : List QueueItem) (k : Nat) (e : Exc),
      (enqueueChunks enqErr k l).2 = some e → ∃ j, enqErr j = some e := by
  intro l
  induction l with
  | nil => intro k e h; exact absurd h (by simp [enqueueChunks])
  | cons i rest ih =>
    intro k e h
    rw [enqueueChunks] at h
    cases he : enqErr k with
    | some e2 =>
      rw [he] at h
      have h2 : some e2 = some e := h
      exact ⟨k, by rw [he]; exact h2⟩
    | none =>
      rw [he] at h
      exact ih (k + 1) e h

/-- C7: every exception raised inside the body of `emit` — during
formatting, the ring-buffer read, or enqueueing — is caught at the
boundary and routed to `handleError`, never propagated: the fault-injected
run is a total function whose exception component is `some e` exactly when
an injected fault fires on the executed path, `e` is always one of the
injected faults, and when no fault fires the enqueued items are exactly
those of the fault-free `emit`. -/
theorem C7_never_raises (fmtErr snapErr : Option Exc) (enqErr : Nat → Option Exc)
    (levelno : Nat) (log_entry : List Char) (bufEntries : Nat)
    (buffer_content timestamp : List Char) :
    ((emitRun fmtErr snapErr enqErr levelno log_entry bufEntries
        buffer_content timestamp).2 = none →
      (emitRun fmtErr snapErr enqErr levelno log_entry bufEntries
        buffer_content timestamp).1
        = emit levelno log_entry bufEntries buffer_content timestamp)
    ∧ (∀ e, (emitRun fmtErr snapErr enqErr levelno log_entry bufEntries
        buffer_content timestamp).2 = some e →
        fmtErr = some e ∨ snapErr = some e ∨ ∃ k, enqErr k = some e)
    ∧ ((emitRun fmtErr snapErr enqErr levelno log_entry bufEntries
        buffer_content timestamp).2 = none ↔
        fmtErr = none
        ∧ (WARNING ≤ levelno → snapErr = none ∧ enqErr 0 = none)
        ∧ (levelno < WARNING →
            ∀ k, k < (emitTextChunks log_entry).length → enqErr k = none)) := by
  cases fmtErr with
  | some e =>
    refine ⟨fun h => absurd h (by simp [emitRun]), ?_, ?_⟩
    · intro e2 h
      simp only [emitRun, Option.some.injEq] at h
      exact Or.inl (by rw [h])
    · simp [emitRun]
  | none =>
    have h0 : emitRun none snapErr enqErr levelno log_entry bufEntries
        buffer_content timestamp
        = if levelno ≥ WARNING then
            (match snapErr with
            | some e => ([], some e)
            | none =>
              match enqErr 0 with
              | some e => ([], some e)
              | none => ([emitDocument levelno log_entry bufEntries buffer_content
                  timestamp], none))
          else enqueueChunks enqErr 0 ((emitTextChunks log_entry).map QueueItem.text) :=
      rfl
    by_cases hW : WARNING ≤ levelno
    · rw [h0, if_pos hW]
      cases snapErr with
      | some e =>
        refine ⟨fun h => absurd h (by simp), ?_, ?_⟩
        · intro e2 h
          have h2 : some e = some e2 := h
          exact Or.inr (Or.inl h2)
        · constructor
          · intro h
            exact absurd h (by simp)
          · intro h
            exact absurd (h.2.1 hW).1 (by simp)
      | none =>
        cases he : enqErr 0 with
        | some e =>
          refine ⟨fun h => absurd h (by simp), ?_, ?_⟩
          · intro e2 h
            have h2 : some e = some e2 := h
            exact Or.inr (Or.inr ⟨0, by rw [he]; exact h2⟩)
          · constructor
            · intro h
              exact absurd h (by simp)
            · intro h
              have h3 := (h.2.1 hW).2
              simp [he] at h3
        | none =>
          refine ⟨fun _ => ?_, fun e2 h => absurd h (by simp), ?_, ?_⟩
          · rw [emit, if_pos hW]
          · intro _
            exact ⟨by simp, fun _ => ⟨by simp, by simp [he]⟩, fun hlt => absurd hlt (by omega)⟩
          · intro _
            rfl
    · have hlt : levelno < WARNING := by omega
      rw [h0, if_neg hW]
      refine ⟨?_, ?_, ?_⟩
      · intro h
        rw [enqueueChunks_ok enqErr _ 0 h, emit, if_neg hW]
      · intro e h
        exact Or.inr (Or.inr (enqueueChunks_err enqErr _ 0 e h))
      · rw [enqueueChunks_none_iff]
        simp only [List.length_map]
        constructor
        · intro h
          refine ⟨by simp, fun hge => absurd hge (by omega), fun _ k hk => ?_⟩
          have := h k hk
          rw [Nat.zero_add] at this
          exact this
        · intro h j hj
          rw [Nat.zero_add]
          exact h.2.2 hlt j hj

/-- C8: calling `_start_worker` any number of times on the same handler
creates at most one worker task; once `_worker_task` is set, every later
call leaves the handler state unchanged and creates nothing. -/
theorem C8_start_once (s : HandlerState) (fs : List Nat) (fresh : Nat) :
    (startMany s fs).2 ≤ 1
    ∧ (s.worker_task ≠ none → startMany s fs = (s, 0))
    ∧ (start_worker s fresh).1.worker_task ≠ none := by
  have hid : ∀ (fs : List Nat) (t : HandlerState), t.worker_task ≠ none →
      startMany t fs = (t, 0) := by
    intro fs
    induction fs with
    | nil => intro t _; rfl
    | cons f rest ih =>
      intro t ht
      rw [startMany]
      cases hw : t.worker_task with
      | none => exact absurd hw ht
      | some x =>
        show ((startMany (start_worker t f).1 rest).1,
          (if (start_worker t f).2 then 1 else 0) + (startMany (start_worker t f).1 rest).2)
            = (t, 0)
        rw [show start_worker t f = (t, false) from by rw [start_worker, hw]]
        rw [ih t ht]
        rfl
  refine ⟨?_, hid fs s, ?_⟩
  · cases fs with
    | nil => exact Nat.zero_le 1
    | cons f rest =>
      rw [startMany]
      cases hw : s.worker_task with
      | none =>
        show (if (start_worker s f).2 then 1 else 0)
          + (startMany (start_worker s f).1 rest).2 ≤ 1
        rw [show start_worker s f = ({ worker_task := some f }, true) from by
          rw [start_worker, hw]]
        rw [hid rest { worker_task := some f } (by simp)]
        simp
      | some x =>
        show (if (start_worker s f).2 then 1 else 0)
          + (startMany (start_worker s f).1 rest).2 ≤ 1
        rw [show start_worker s f = (s, false) from by rw [start_worker, hw]]
        rw [hid rest s (by simp [hw])]
        simp
  · rw [start_worker]
    cases hw : s.worker_task with
    | none => simp
    | some x => simp [hw]

/-- Witness for C8 on a freshly constructed handler and three start
calls. -/
theorem C8_start_once_witness :
    (startMany { worker_task := none } [1, 2, 3]).2 ≤ 1
    ∧ ((HandlerState.mk none).worker_task ≠ none →
        startMany { worker_task := none } [1, 2, 3] = ({ worker_task := none }, 0))
    ∧ (start_worker { worker_task := none } 1).1.worker_task ≠ none :=
  C8_start_once { worker_task := none } [1, 2, 3] 1

theorem sendSeq_workerStep (outcome : Nat → SendOutcome) (i : Nat) :
    ∀ x ∈ sendSeq (workerStep outcome i), x = i := by
  intro x hx
  rw [sendSeq, List.mem_filterMap] at hx
  obtain ⟨e, he, hsome⟩ := hx
  cases e with
  | send j a =>
    simp only [Option.some.injEq] at hsome
    rw [workerStep, List.mem_append, List.mem_append] at he
    rcases he with (he | he) | he
    · rw [← hsome]
      exact sendLoopGo_mem_send outcome i MAX_RETRIES 0 j a he
    · rcases em ((sendItem outcome i).2 = true) with hs | hs
      · simp [hs] at he
      · simp [Bool.not_eq_true] at hs
        simp [hs] at he
    · simp at he
  | floodSleep s => exact absurd hsome (by simp)
  | backoffSleep s => exact absurd hsome (by simp)
  | dropped j => exact absurd hsome (by simp)
  | rateSleep => exact absurd hsome (by simp)
  | done j => exact absurd hsome (by simp)

theorem sendSeq_workerTrace_ge (behavior : Nat → Nat → SendOutcome) :
    ∀ (q : List QueueItem) (idx : Nat), ∀ x ∈ sendSeq (workerTrace behavior idx q), idx ≤ x := by
  intro q
  induction q with
  | nil => intro idx x hx; simp [workerTrace, sendSeq] at hx
  | cons c rest ih =>
    intro idx x hx
    rw [workerTrace, sendSeq, List.filterMap_append] at hx
    rcases List.mem_append.mp hx with hx | hx
    · exact (sendSeq_workerStep (behavior idx) idx x hx).ge
    · exact Nat.le_of_succ_le (ih (idx + 1) x hx)

theorem pairwise_le_of_all_eq (i : Nat) :
    ∀ (l : List Nat), (∀ x ∈ l, x = i) → List.Pairwise (· ≤ ·) l := by
  intro l
  induction l with
  | nil => intro _; exact List.Pairwise.nil
  | cons x rest ih =>
    intro h
    refine List.Pairwise.cons ?_ (ih fun y hy => h y (List.mem_cons_of_mem x hy))
    intro y hy
    rw [h x (List.mem_cons_self x rest), h y (List.mem_cons_of_mem x hy)]

theorem send_mem_workerStep (outcome : Nat → SendOutcome) (i j a : Nat)
    (h : WorkerEvent.send j a ∈ workerStep outcome i) : j = i := by
  rw [workerStep, List.mem_append, List.mem_append] at h
  rcases h with (h | h) | h
  · exact sendLoopGo_mem_send outcome i MAX_RETRIES 0 j a h
  · rcases em ((sendItem outcome i).2 = true) with hs | hs
    · simp [hs] at h
    · simp [Bool.not_eq_true] at hs
      simp [hs] at h
  · simp at h

theorem done_mem_workerStep (outcome : Nat → SendOutcome) (i : Nat) :
    WorkerEvent.done i ∈ workerStep outcome i := by
  rw [workerStep, List.mem_append]
  exact Or.inr (by simp)

theorem workerTrace_done_before (behavior : Nat → Nat → SendOutcome) :
    ∀ (queue : List QueueItem) (idx : Nat) (pre : List WorkerEvent) (j a : Nat)
      (post : List WorkerEvent),
      workerTrace behavior idx queue = pre ++ WorkerEvent.send j a :: post →
      ∀ i, idx ≤ i → i < j → WorkerEvent.done i ∈ pre := by
  intro queue
  induction queue with
  | nil =>
    intro idx pre j a post h
    rw [workerTrace] at h
    exact absurd h.symm (by simp)
  | cons c rest ih =>
    intro idx pre j a post h
    rw [workerTrace] at h
    rcases List.append_eq_append_iff.mp h with ⟨mid, hpre, htr⟩ | ⟨mid, hstep, hrest⟩
    · intro i hi hij
      rw [hpre, List.mem_append]
      rcases Nat.eq_or_lt_of_le hi with heq | hlt
      · exact Or.inl (heq ▸ done_mem_workerStep (behavior idx) idx)
      · exact Or.inr (ih (idx + 1) mid j a post htr i hlt hij)
    · match mid, hrest with
      | [], hrest =>
        intro i hi hij
        have htr : workerTrace behavior (idx + 1) rest = WorkerEvent.send j a :: post := by
          rw [List.nil_append] at hrest
          exact hrest.symm
        rcases Nat.eq_or_lt_of_le hi with heq | hlt
        · have hpre : pre = workerStep (behavior idx) idx := by
            rw [List.append_nil] at hstep
            exact hstep.symm
          rw [hpre]
          exact heq ▸ done_mem_workerStep (behavior idx) idx
        · have := ih (idx + 1) [] j a post (by rw [List.nil_append]; exact htr)
            i hlt hij
          exact absurd this (by simp)
      | e :: mid2, hrest =>
        intro i hi hij
        have hhead : e = WorkerEvent.send j a :=
          ((List.cons.injEq _ _ _ _).mp hrest.symm).1
        have hsend : WorkerEvent.send j a ∈ workerStep (behavior idx) idx := by
          rw [hstep, List.mem_append, hhead]
          exact Or.inr (List.mem_cons_self _ _)
        have : j = idx := send_mem_workerStep (behavior idx) idx j a hsend
        omega

/-- C9: the Worker sends items in strict FIFO order.  The sequence of
queue positions handed to the transport is monotone (never reorders), and
every transport attempt for a later-enqueued item occurs only after the
`task_done` bookkeeping of every earlier-enqueued item — the worker loop
is sequential, so no two sends ever overlap. -/
theorem C9_fifo_order (behavior : Nat → Nat → SendOutcome) (idx : Nat)
    (queue : List QueueItem) :
    List.Pairwise (· ≤ ·) (sendSeq (workerTrace behavior idx queue))
    ∧ ∀ pre j a post,
        workerTrace behavior idx queue = pre ++ WorkerEvent.send j a :: post →
        ∀ i, idx ≤ i → i < j → WorkerEvent.done i ∈ pre := by
  constructor
  · induction queue generalizing idx with
    | nil => exact List.Pairwise.nil
    | cons c rest ih =>
      rw [workerTrace, sendSeq, List.filterMap_append]
      rw [List.pairwise_append]
      refine ⟨pairwise_le_of_all_eq idx _ (sendSeq_workerStep (behavior idx) idx), ih (idx + 1), ?_⟩
      intro x hx y hy
      rw [sendSeq_workerStep (behavior idx) idx x hx]
      exact Nat.le_of_succ_le (sendSeq_workerTrace_ge behavior rest (idx + 1) y hy)
  · exact workerTrace_done_before behavior queue idx

/-- C10: a record whose severity number is at or above WARNING but is not
exactly one of the WARNING/ERROR/CRITICAL level numbers (for example a
custom level such as 35) falls back to the WARNING presentation: the
`level_config.get` default applies, so the enqueued file payload carries
the WARNING label and emoji in its caption and a filename starting with
the `warning_` marker. -/
theorem C10_custom_level_fallback (levelno : Nat) (h1 : WARNING ≤ levelno)
    (h2 : levelno ≠ WARNING) (h3 : levelno ≠ ERROR) (h4 : levelno ≠ CRITICAL)
    (log_entry : List Char) (bufEntries : Nat) (buffer_content timestamp : List Char) :
    levelConfigGet levelno = warningConfig
    ∧ emit levelno log_entry bufEntries buffer_content timestamp
        = [QueueItem.document
            (combinedFileBody bufEntries buffer_content warningConfig log_entry)
            ("warning".toList ++ "_".toList ++ timestamp ++ ".txt".toList)
            ("⚠️ ПРЕДУПРЕЖДЕНИЕ".toList)]
    ∧ "warning_".toList <+:
        ("warning".toList ++ "_".toList ++ timestamp ++ ".txt".toList) := by
  have hc : levelConfigGet levelno = warningConfig := by
    rw [levelConfigGet, if_neg h2, if_neg h3, if_neg h4]
  refine ⟨hc, ?_, ?_⟩
  · rw [emit, if_pos h1, emitDocument, hc]
    rfl
  · have heq : ("warning".toList ++ "_".toList ++ timestamp ++ ".txt".toList)
        = "warning_".toList ++ (timestamp ++ ".txt".toList) := by
      simp only [List.append_assoc]
      rfl
    rw [heq]
    exact List.prefix_append _ _

/-- Witness for C10 at the custom severity number 35. -/
theorem C10_custom_level_fallback_witness :
    levelConfigGet 35 = warningConfig
    ∧ emit 35 "x".toList 1 "b".toList "T".toList
        = [QueueItem.document
            (combinedFileBody 1 "b".toList warningConfig "x".toList)
            ("warning".toList ++ "_".toList ++ "T".toList ++ ".txt".toList)
            ("⚠️ ПРЕДУПРЕЖДЕНИЕ".toList)]
    ∧ "warning_".toList <+:
        ("warning".toList ++ "_".toList ++ "T".toList ++ ".txt".toList) :=
  C10_custom_level_fallback 35 (by decide) (by decide) (by decide) (by decide)
    "x".toList 1 "b".toList "T".toList

/-- Witness for C1 amended at an INFO record with a short message. -/
theorem C1_amended_witness :
    emit 20 "ab".toList 0 [] [] = (emitTextChunks "ab".toList).map QueueItem.text
    ∧ (emitTextChunks "ab".toList).length
        = ("ab".toList.length + (MAX_MESSAGE_LENGTH - 1)) / MAX_MESSAGE_LENGTH
    ∧ (∀ c ∈ stripChunks (splitMessage "ab".toList).length 1 (emitTextChunks "ab".toList),
        c.length ≤ MAX_MESSAGE_LENGTH)
    ∧ (stripChunks (splitMessage "ab".toList).length 1 (emitTextChunks "ab".toList)).flatten
        = "ab".toList :=
  C1_amended 20 (by decide) "ab".toList 0 [] []

/-- Witness for C7 with a fault injected into the second `put_nowait`
call of a single-chunk INFO record: the call is never reached, so nothing
is routed to `handleError` and the enqueued items match the fault-free
`emit`. -/
theorem C7_never_raises_witness :
    ((emitRun none none (fun k => if k = 1 then some 7 else none) 20 "hi".toList 0
        [] []).2 = none →
      (emitRun none none (fun k => if k = 1 then some 7 else none) 20 "hi".toList 0
        [] []).1 = emit 20 "hi".toList 0 [] [])
    ∧ (∀ e, (emitRun none none (fun k => if k = 1 then some 7 else none) 20 "hi".toList 0
        [] []).2 = some e →
        (none : Option Exc) = some e ∨ (none : Option Exc) = some e
          ∨ ∃ k, (fun k => if k = 1 then some 7 else none : Nat → Option Exc) k = some e)
    ∧ ((emitRun none none (fun k => if k = 1 then some 7 else none) 20 "hi".toList 0
        [] []).2 = none ↔
        (none : Option Exc) = none
        ∧ (WARNING ≤ 20 → (none : Option Exc) = none
            ∧ (fun k => if k = 1 then some 7 else none : Nat → Option Exc) 0 = none)
        ∧ (20 < WARNING → ∀ k, k < (emitTextChunks "hi".toList).length →
            (fun k => if k = 1 then some 7 else none : Nat → Option Exc) k = none)) :=
  C7_never_raises none none (fun k => if k = 1 then some 7 else none) 20 "hi".toList 0 [] []
